import Mathlib

/-!
Verification of the postgresql-textfield-testing utilities.

Shallow embedding of the two scripts `fill_data.py` (schema seeding / bulk
loading) and `test_operations.py` (CRUD benchmarking and statistics).
Elapsed-time measurements, which in the source come from the wall clock, are
modelled as exact rationals supplied by oracles; machine floats of the source
are modelled as exact rationals (the float arithmetic of the source agrees
with the exact value on every quantity the claims mention).
-/

namespace PgText

/-- `OPERATIONS_COUNT` of test_operations.py: operations per benchmark loop. -/
def OPERATIONS_COUNT : ℕ := 1000

/-- `RECORDS_COUNT` of fill_data.py: target row count per table. -/
def RECORDS_COUNT : ℕ := 2000000

/-- `BATCH_SIZE` of fill_data.py: rows per batched insert. -/
def BATCH_SIZE : ℕ := 10000

/-- `statistics.median` of the Python standard library, as used by the four
benchmark loops: sort ascending; for odd `n` take the middle element, for
even `n` the average of the two middle elements.  `none` models the
`StatisticsError` raised on an empty sequence. -/
def median (times : List ℚ) : Option ℚ :=
  if times.isEmpty then none
  else
    let s := times.insertionSort (· ≤ ·)
    let n := s.length
    if n % 2 = 1 then some (s.getD (n / 2) 0)
    else some ((s.getD (n / 2 - 1) 0 + s.getD (n / 2) 0) / 2)

/-- The dictionary of base statistics built identically in `test_insert`,
`test_select_by_id`, `test_update_by_id` and `test_delete_by_id`
(src/test_operations.py).  `count` is the `count` parameter of the enclosing
test function; `times` the list of measured durations.  `none` models the
exception `statistics.mean` raises on an empty list. -/
structure BaseStats where
  total_time : ℚ
  avg_time : ℚ
  min_time : ℚ
  max_time : ℚ
  median_time : ℚ
  ops_per_sec : ℚ
deriving DecidableEq, Repr

def base_stats (count : ℕ) (times : List ℚ) : Option BaseStats :=
  if times.isEmpty then none
  else some
    { total_time := times.sum
      avg_time := times.sum / times.length
      min_time := (times.min?).getD 0
      max_time := (times.max?).getD 0
      median_time := (median times).getD 0
      ops_per_sec := if 0 < times.sum then (count : ℚ) / times.sum else 0 }

/-- Extended statistics of `calculate_extended_stats` (src/test_operations.py).
Only the two nearest-rank percentiles are kept; the standard deviation and
coefficient of variation involve a square root and no claim concerns their
values.  `none` models the empty dictionary returned for an empty sample
list.  The percentile indices `int(n * 0.95)` / `int(n * 0.99)` are modelled
exactly as `n * 95 / 100` and `n * 99 / 100` (natural floor division); the
float product of the source rounds to the same integer for every sample
count a benchmark can produce. -/
structure ExtStats where
  p95_time : ℚ
  p99_time : ℚ
deriving DecidableEq, Repr

def calculate_extended_stats (times : List ℚ) : Option ExtStats :=
  if times.isEmpty then none
  else
    let sorted_times := times.insertionSort (· ≤ ·)
    let n := sorted_times.length
    let p95_idx := n * 95 / 100
    let p99_idx := n * 99 / 100
    let p95 := if p95_idx < n then sorted_times.getD p95_idx 0
      else sorted_times.getD (n - 1) 0
    let p99 := if p99_idx < n then sorted_times.getD p99_idx 0
      else sorted_times.getD (n - 1) 0
    some { p95_time := p95, p99_time := p99 }

/-- The `times` list accumulated by a benchmark loop of `count` iterations:
one wall-clock duration per iteration, supplied by the oracle `dur`. -/
def run_times (dur : ℕ → ℚ) (count : ℕ) : List ℚ :=
  (List.range count).map dur

/-- `test_insert` (src/test_operations.py): `count` single-row inserts, one
timing sample each, then the base statistics. -/
def test_insert (dur : ℕ → ℚ) (count : ℕ) : Option BaseStats :=
  base_stats count (run_times dur count)

/-- `test_select_by_id` (src/test_operations.py): `count` point lookups. -/
def test_select_by_id (dur : ℕ → ℚ) (maxId : ℕ) (count : ℕ) : Option BaseStats :=
  base_stats count (run_times dur count)

/-- `test_update_by_id` (src/test_operations.py): `count` single-row updates. -/
def test_update_by_id (dur : ℕ → ℚ) (maxId : ℕ) (count : ℕ) : Option BaseStats :=
  base_stats count (run_times dur count)

/-- `test_delete_by_id` (src/test_operations.py): the loop runs once per id in
`ids_to_delete` (the result of `SELECT id ... ORDER BY RANDOM() LIMIT count`,
hence of length `min count rowcount`), one timing sample each, while the
`ops_per_sec` entry of the statistics dictionary divides the `count`
parameter by the total time. -/
def test_delete_by_id (dur : ℕ → ℚ) (ids_to_delete : List ℕ) (count : ℕ) :
    Option BaseStats :=
  base_stats count ((List.range ids_to_delete.length).map dur)

/-- `get_max_id` (src/test_operations.py): `SELECT MAX(id)` yields `NULL` on an
empty table, and the Python `result if result else 0` maps both `None` and
`0` to `0`.  A table is modelled as the list of ids of its live rows. -/
def get_max_id (rows : List ℕ) : ℕ :=
  (rows.max?).getD 0

/-- Round a rational to the nearest integer, ties to even — the rounding
Python applies when formatting a value with two decimal places. -/
def roundHalfEven (q : ℚ) : ℤ :=
  let f := ⌊q⌋
  let r := q - f
  if 1 / 2 < r then f + 1
  else if r < 1 / 2 then f
  else if f % 2 = 0 then f else f + 1

/-- Two-digit zero-padded rendering of a number below 100. -/
def padTwo (n : ℕ) : String :=
  if n < 10 then "0" ++ toString n else toString n

/-- The Python format specifier `.2f` applied to a non-negative value:
two decimal places, rounding to nearest. -/
def fmtTwoDec (q : ℚ) : String :=
  let c := (roundHalfEven (q * 100)).toNat
  toString (c / 100) ++ "." ++ padTwo (c % 100)

/-- `format_size` (src/test_operations.py): walk the unit list
`['Б', 'КБ', 'МБ', 'ГБ', 'ТБ']`, dividing by 1024 until the value drops below
1024, falling through to `'ПБ'`. -/
def format_size_go : List String → ℚ → String
  | [], b => fmtTwoDec b ++ " ПБ"
  | u :: us, b =>
      if b < 1024 then fmtTwoDec b ++ " " ++ u
      else format_size_go us (b / 1024)

def format_size (bytes_size : ℚ) : String :=
  format_size_go ["Б", "КБ", "МБ", "ГБ", "ТБ"] bytes_size

/-- The four timed benchmark loops of `test_table` (src/test_operations.py). -/
inductive BenchOp where
  | insert
  | selectById
  | updateById
  | deleteById
deriving DecidableEq, Repr

/-- `test_table` (src/test_operations.py), reduced to its control flow over
timing sample sets: read `max_id`; if it is `0`, return `None` having run no
timed loop; otherwise run the four loops in order and return, per loop, its
recorded `times` list.  The INSERT loop adds `count` rows before the DELETE
loop samples `min count` (current rowcount) ids; SELECT and UPDATE touch no
row count.  `dur op i` is the wall-clock duration of iteration `i` of loop
`op`. -/
def test_table (rows : List ℕ) (dur : BenchOp → ℕ → ℚ) (count : ℕ) :
    Option (List (BenchOp × List ℚ)) :=
  let maxId := get_max_id rows
  if maxId = 0 then none
  else
    let insertTimes := run_times (dur .insert) count
    let selectTimes := run_times (dur .selectById) count
    let updateTimes := run_times (dur .updateById) count
    let rowsAfterInsert := rows.length + count
    let deleteTimes := (List.range (min count rowsAfterInsert)).map (dur .deleteById)
    some [(.insert, insertTimes), (.selectById, selectTimes),
          (.updateById, updateTimes), (.deleteById, deleteTimes)]

/-! ### fill_data.py -/

/-- A table as the bulk loader sees it: the ids of its live rows together
with the next value of the identity sequence backing the `id` column. -/
structure PgTable where
  rows : List ℕ
  nextId : ℕ
deriving DecidableEq, Repr

/-- One committed batched insert of `b` generated rows: the engine assigns
the next `b` sequential ids. -/
def insertBatch (t : PgTable) (b : ℕ) : PgTable :=
  { rows := t.rows ++ List.range' t.nextId b, nextId := t.nextId + b }

/-- A progress line logged by `fill_table`: the `total_inserted` counter at
the moment of logging and the reported rows-per-second rate. -/
structure Progress where
  totalInserted : ℕ
  rate : ℚ
deriving DecidableEq, Repr

/-- The `while total_inserted < RECORDS_COUNT` loop of `fill_table`
(src/fill_data.py): each iteration inserts a batch of
`min(batch_size, records_count - total_inserted)` rows, commits, and logs a
progress line when the updated counter is a multiple of 100 000, reporting
`total_inserted / elapsed` (or 0 for zero elapsed time).  `elapsedAt j` is
the wall-clock time elapsed since the loop started when batch `j` finishes.
Returns the batch sizes and the progress lines.  `fuel` bounds the number of
iterations; with a positive batch size the bound passed by `fill_table` is
never exhausted. -/
def fill_loop (records_count batch_size : ℕ) (elapsedAt : ℕ → ℚ) :
    ℕ → ℕ → ℕ → List ℕ × List Progress
  | 0, _, _ => ([], [])
  | fuel + 1, total_inserted, j =>
      if total_inserted < records_count then
        let batch_count := min batch_size (records_count - total_inserted)
        let total2 := total_inserted + batch_count
        let rest := fill_loop records_count batch_size elapsedAt fuel total2 (j + 1)
        let ev : List Progress :=
          if total2 % 100000 = 0 then
            [{ totalInserted := total2,
               rate := if 0 < elapsedAt j then (total2 : ℚ) / elapsedAt j else 0 }]
          else []
        (batch_count :: rest.1, ev ++ rest.2)
      else ([], [])

/-- Everything `fill_table` does besides returning, for one table. -/
structure FillReport where
  skipped : Bool
  truncated : Bool
  batches : List ℕ
  events : List Progress
  returnValue : ℚ
deriving DecidableEq, Repr

/-- `fill_table` (src/fill_data.py) for a table currently in state `t`, with
target `records_count` (the global `RECORDS_COUNT`) and batch size
`batch_size`.  If `skip_if_exists` is set and the current row count already
reaches the target, nothing is touched and `0` is returned.  Otherwise: an
empty table is truncated with `RESTART IDENTITY`; the insert loop then runs
with `total_inserted` initialised to the current row count; the return value
is the total elapsed wall-clock time `final_elapsed`.  `elapsedAt` supplies
the elapsed time observed at each batch boundary. -/
def fill_table (records_count batch_size : ℕ) (skip_if_exists : Bool)
    (elapsedAt : ℕ → ℚ) (final_elapsed : ℚ) (t : PgTable) :
    PgTable × FillReport :=
  let current_count := t.rows.length
  if skip_if_exists ∧ records_count ≤ current_count then
    (t, { skipped := true, truncated := false, batches := [], events := [],
          returnValue := 0 })
  else
    let t1 : PgTable := if current_count = 0 then { rows := [], nextId := 1 } else t
    let res := fill_loop records_count batch_size elapsedAt
      records_count current_count 0
    (res.1.foldl insertBatch t1,
     { skipped := false, truncated := current_count = 0, batches := res.1,
       events := res.2, returnValue := final_elapsed })

/-- The checkpoint behaviour of the insert loop, stated directly over the
emitted batch list: after a batch ending at cumulative counter `total2`
(pre-existing rows included), a progress line appears exactly when
`total2` is a multiple of 100 000, reporting `total2 / elapsed`.  Used to
state the amended form of the progress-reporting claim. -/
def progress_of_batches (elapsedAt : ℕ → ℚ) : ℕ → ℕ → List ℕ → List Progress
  | _, _, [] => []
  | total, j, b :: bs =>
      let total2 := total + b
      (if total2 % 100000 = 0 then
        [{ totalInserted := total2,
           rate := if 0 < elapsedAt j then (total2 : ℚ) / elapsedAt j else 0 }]
      else []) ++ progress_of_batches elapsedAt total2 (j + 1) bs

/-- The index of the display unit the specification's words select for a
non-negative byte count: the largest unit of the base-1024 sequence that
applies to `b`, capped at the petabyte entry.  Stated from the spec, to be
compared against what `format_size` computes. -/
def spec_unit_index (b : ℚ) : ℕ :=
  if b < 1024 then 0
  else if b < 1024 ^ 2 then 1
  else if b < 1024 ^ 3 then 2
  else if b < 1024 ^ 4 then 3
  else if b < 1024 ^ 5 then 4
  else 5

/-- The observable actions of `main` (src/fill_data.py), in order. -/
inductive SeederAction where
  | printError
  | connect
  | createTables
  | fillTable : String → SeederAction
deriving DecidableEq, Repr

/-- `tables_config` of `main` (src/fill_data.py). -/
def tables_config : List (ℕ × String × ℕ × ℕ) :=
  [(1, "table1", 1, 100), (2, "table2", 1, 100), (3, "table3", 500, 1000),
   (4, "table4", 9000, 10000), (5, "table5", 500, 1000),
   (6, "table6", 9000, 10000), (7, "table7", 500, 1000)]

/-- `main` (src/fill_data.py), reduced to its externally observable actions:
validate `--start-from`; out of range `[1, 7]` prints an error and returns
before connecting; otherwise connect, create the tables, and fill every
configured table from `start_from` on. -/
def seeder_main (start_from : ℤ) : List SeederAction :=
  if start_from < 1 ∨ 7 < start_from then [.printError]
  else
    .connect :: .createTables ::
      tables_config.filterMap fun c =>
        if (c.1 : ℤ) < start_from then none else some (.fillTable c.2.1)

/-! ### Helper lemmas -/

theorem fill_loop_zero (rc bs : ℕ) (el : ℕ → ℚ) (total j : ℕ) :
    fill_loop rc bs el 0 total j = ([], []) := rfl

theorem fill_loop_succ (rc bs : ℕ) (el : ℕ → ℚ) (fuel total j : ℕ) :
    fill_loop rc bs el (fuel + 1) total j =
      if total < rc then
        let batch_count := min bs (rc - total)
        let total2 := total + batch_count
        let rest := fill_loop rc bs el fuel total2 (j + 1)
        let ev : List Progress :=
          if total2 % 100000 = 0 then
            [{ totalInserted := total2,
               rate := if 0 < el j then (total2 : ℚ) / el j else 0 }]
          else []
        (batch_count :: rest.1, ev ++ rest.2)
      else ([], []) := rfl

/-- With a positive batch size and enough fuel, the loop inserts exactly the
missing `records_count - total_inserted` rows. -/
theorem fill_loop_sum (rc bs : ℕ) (el : ℕ → ℚ) (hbs : 0 < bs) :
    ∀ fuel total j, rc - total ≤ fuel →
      (fill_loop rc bs el fuel total j).1.sum = rc - total := by
  intro fuel
  induction fuel with
  | zero =>
      intro total j h
      rw [fill_loop_zero]
      simpa using (Nat.le_antisymm h (Nat.zero_le _)).symm
  | succ fuel ih =>
      intro total j h
      rw [fill_loop_succ]
      by_cases hlt : total < rc
      · rw [if_pos hlt]
        have hrec := ih (total + min bs (rc - total)) (j + 1) (by omega)
        simp only [List.sum_cons, hrec]
        omega
      · rw [if_neg hlt]
        simp
        omega

/-- Every batch the loop inserts has at most `batch_size` rows. -/
theorem fill_loop_batch_le (rc bs : ℕ) (el : ℕ → ℚ) :
    ∀ fuel total j, ∀ b ∈ (fill_loop rc bs el fuel total j).1, b ≤ bs := by
  intro fuel
  induction fuel with
  | zero => intro total j b hb; rw [fill_loop_zero] at hb; simp at hb
  | succ fuel ih =>
      intro total j b hb
      rw [fill_loop_succ] at hb
      by_cases hlt : total < rc
      · rw [if_pos hlt] at hb
        rcases List.mem_cons.mp hb with h | h

        · omega
        · exact ih _ _ b h
      · rw [if_neg hlt] at hb; simp at hb

/-- The progress lines the loop emits are exactly described by
`progress_of_batches` over the batches it inserts. -/
theorem fill_loop_events_eq (rc bs : ℕ) (el : ℕ → ℚ) :
    ∀ fuel total j,
      (fill_loop rc bs el fuel total j).2 =
        progress_of_batches el total j (fill_loop rc bs el fuel total j).1 := by
  intro fuel
  induction fuel with
  | zero => intro total j; rfl
  | succ fuel ih =>
      intro total j
      rw [fill_loop_succ]
      by_cases hlt : total < rc
      · rw [if_pos hlt]
        simp only [progress_of_batches, ih]
      · rw [if_neg hlt]; rfl

/-- Applying a sequence of batched inserts appends the corresponding block of
sequential ids. -/
theorem foldl_insertBatch (bsl : List ℕ) (t : PgTable) :
    bsl.foldl insertBatch t =
      { rows := t.rows ++ List.range' t.nextId bsl.sum,
        nextId := t.nextId + bsl.sum } := by
  induction bsl generalizing t with
  | nil => simp
  | cons b bs ih =>
      rw [List.foldl_cons, ih]
      have hr : List.range' t.nextId b ++ List.range' (t.nextId + b) bs.sum
          = List.range' t.nextId (bs.sum + b) := by
        have h1 := List.range'_append t.nextId b bs.sum 1
        rw [one_mul] at h1
        exact h1
      simp only [insertBatch, List.sum_cons, List.append_assoc, hr]
      rw [PgTable.mk.injEq]
      constructor
      · rw [Nat.add_comm b bs.sum]
      · omega

theorem base_stats_ops (count : ℕ) (times : List ℚ) (h : times ≠ []) :
    (base_stats count times).map (fun b => b.ops_per_sec) =
      some (if 0 < times.sum then (count : ℚ) / times.sum else 0) := by
  simp [base_stats, h]

theorem base_stats_median (count : ℕ) (times : List ℚ) (h : times ≠ []) :
    (base_stats count times).map (fun b => b.median_time) =
      some ((median times).getD 0) := by
  simp [base_stats, h]

theorem run_times_length (dur : ℕ → ℚ) (count : ℕ) :
    (run_times dur count).length = count := by
  simp [run_times]

theorem run_times_ne_nil (dur : ℕ → ℚ) (count : ℕ) (hc : 0 < count) :
    run_times dur count ≠ [] := by
  intro hnil
  have := run_times_length dur count
  rw [hnil] at this
  simp at this
  omega

/-- Any sorted permutation of a list of rationals is its insertion sort. -/
theorem sorted_perm_eq_sort (times s : List ℚ) (hp : s.Perm times)
    (hs : s.Sorted (· ≤ ·)) : s = times.insertionSort (· ≤ ·) :=
  List.eq_of_perm_of_sorted (hp.trans (List.perm_insertionSort _ _).symm) hs
    (List.sorted_insertionSort _ _)

/-- `statistics.median` in terms of any sorted permutation of the input. -/
theorem median_eq_of_sorted (times s : List ℚ) (h : times ≠ [])
    (hp : s.Perm times) (hs : s.Sorted (· ≤ ·)) :
    median times =
      some (if s.length % 2 = 1 then s.getD (s.length / 2) 0
        else (s.getD (s.length / 2 - 1) 0 + s.getD (s.length / 2) 0) / 2) := by
  have hsort := sorted_perm_eq_sort times s hp hs
  simp only [median, ← hsort]
  rw [if_neg (by simpa [List.isEmpty_iff] using h), apply_ite some]

/-- `calculate_extended_stats` in terms of any sorted permutation of the
input: the two percentiles are the sorted elements at the nearest-rank
indices, which always fall below the length. -/
theorem calc_ext_eq (times s : List ℚ) (hne : times ≠ []) (hp : s.Perm times)
    (hs : s.Sorted (· ≤ ·)) :
    calculate_extended_stats times =
      some { p95_time := s.getD (s.length * 95 / 100) 0,
             p99_time := s.getD (s.length * 99 / 100) 0 } := by
  have hsort := sorted_perm_eq_sort times s hp hs
  have hn : 0 < s.length := by
    rw [hp.length_eq]
    exact List.length_pos.mpr hne
  have h95 : s.length * 95 / 100 < s.length := by
    rw [Nat.div_lt_iff_lt_mul (by norm_num)]
    omega
  have h99 : s.length * 99 / 100 < s.length := by
    rw [Nat.div_lt_iff_lt_mul (by norm_num)]
    omega
  simp only [calculate_extended_stats, ← hsort]
  rw [if_neg (by simpa [List.isEmpty_iff] using hne), if_pos h95, if_pos h99]

/-! ### Claim theorems -/

/-- C5: if a table holds `k` rows with `0 < k < N` when the bulk loader runs
with target `N`, the loader performs no truncation, skips nothing, inserts
exactly `N - k` new rows in batches each of size at most the configured
batch size, and the table ends with exactly `N` rows. -/
theorem spec_C5_resume (rc bs : ℕ) (skip : Bool) (el : ℕ → ℚ) (fe : ℚ)
    (t : PgTable) (hpos : 0 < t.rows.length) (hlt : t.rows.length < rc)
    (hbs : 0 < bs) :
    (fill_table rc bs skip el fe t).2.skipped = false ∧
    (fill_table rc bs skip el fe t).2.truncated = false ∧
    (fill_table rc bs skip el fe t).2.batches.sum = rc - t.rows.length ∧
    (∀ b ∈ (fill_table rc bs skip el fe t).2.batches, b ≤ bs) ∧
    (fill_table rc bs skip el fe t).1.rows.length = rc := by
  have hcond : ¬ (skip = true ∧ rc ≤ t.rows.length) := fun h => absurd h.2 (by omega)
  have hc0 : ¬ (t.rows.length = 0) := by omega
  simp only [fill_table, if_neg hcond, if_neg hc0]
  have hsum := fill_loop_sum rc bs el hbs rc t.rows.length 0 (by omega)
  refine ⟨trivial, by simp [hc0], hsum, fill_loop_batch_le rc bs el rc t.rows.length 0, ?_⟩
  rw [foldl_insertBatch]
  simp [hsum]
  omega

/-- Witness for C5 at a concrete resumed fill: 3 pre-existing rows, target
10, batch size 4. -/
theorem spec_C5_resume_witness :
    0 < (PgTable.mk [1, 2, 3] 4).rows.length ∧
    (PgTable.mk [1, 2, 3] 4).rows.length < 10 ∧
    0 < 4 ∧
    ((fill_table 10 4 false (fun _ => 1) 2 (PgTable.mk [1, 2, 3] 4)).2.skipped = false ∧
     (fill_table 10 4 false (fun _ => 1) 2 (PgTable.mk [1, 2, 3] 4)).2.truncated = false ∧
     (fill_table 10 4 false (fun _ => 1) 2 (PgTable.mk [1, 2, 3] 4)).2.batches.sum =
       10 - (PgTable.mk [1, 2, 3] 4).rows.length ∧
     (∀ b ∈ (fill_table 10 4 false (fun _ => 1) 2 (PgTable.mk [1, 2, 3] 4)).2.batches, b ≤ 4) ∧
     (fill_table 10 4 false (fun _ => 1) 2 (PgTable.mk [1, 2, 3] 4)).1.rows.length = 10) :=
  ⟨by decide, by decide, by decide,
   spec_C5_resume 10 4 false (fun _ => 1) 2 (PgTable.mk [1, 2, 3] 4)
     (by decide) (by decide) (by decide)⟩

/-- C7: if a table holds `0` rows when the bulk loader runs with a positive
target `N`, the loader truncates the table with `RESTART IDENTITY` and then
inserts exactly `N` rows, so the table ends with exactly the rows carrying
ids `1..N`. -/
theorem spec_C7_reset (rc bs : ℕ) (skip : Bool) (el : ℕ → ℚ) (fe : ℚ)
    (t : PgTable) (hrows : t.rows = []) (hrc : 0 < rc) (hbs : 0 < bs) :
    (fill_table rc bs skip el fe t).2.skipped = false ∧
    (fill_table rc bs skip el fe t).2.truncated = true ∧
    (fill_table rc bs skip el fe t).1.rows = List.range' 1 rc ∧
    (fill_table rc bs skip el fe t).1.rows.length = rc := by
  have hlen : t.rows.length = 0 := by rw [hrows]; rfl
  have hcond : ¬ (skip = true ∧ rc ≤ t.rows.length) := fun h => absurd h.2 (by omega)
  simp only [fill_table, if_neg hcond, if_pos hlen]
  have hsum := fill_loop_sum rc bs el hbs rc t.rows.length 0 (by omega)
  rw [hlen] at hsum
  rw [foldl_insertBatch]
  simp [hsum, hlen]

/-- Witness for C7: an empty table whose identity sequence is at 42 is reset
and filled with ids `1..5`. -/
theorem spec_C7_reset_witness :
    (PgTable.mk [] 42).rows = [] ∧ 0 < 5 ∧ 0 < 2 ∧
    ((fill_table 5 2 true (fun _ => 1) 3 (PgTable.mk [] 42)).2.skipped = false ∧
     (fill_table 5 2 true (fun _ => 1) 3 (PgTable.mk [] 42)).2.truncated = true ∧
     (fill_table 5 2 true (fun _ => 1) 3 (PgTable.mk [] 42)).1.rows = List.range' 1 5 ∧
     (fill_table 5 2 true (fun _ => 1) 3 (PgTable.mk [] 42)).1.rows.length = 5) :=
  ⟨rfl, by decide, by decide,
   spec_C7_reset 5 2 true (fun _ => 1) 3 (PgTable.mk [] 42) rfl (by decide) (by decide)⟩

/-- C8: with the skip-if-filled flag set and the current row count at or
above the target, the loader leaves the table untouched — no truncation, no
batch, no progress line — and returns elapsed time `0`. -/
theorem spec_C8_skip (rc bs : ℕ) (el : ℕ → ℚ) (fe : ℚ) (t : PgTable)
    (h : rc ≤ t.rows.length) :
    fill_table rc bs true el fe t =
      (t, { skipped := true, truncated := false, batches := [], events := [],
            returnValue := 0 }) := by
  simp only [fill_table, if_pos (And.intro trivial h)]

/-- Witness for C8: a table with 3 rows and target 2 is returned unchanged
with report value `0`. -/
theorem spec_C8_skip_witness :
    2 ≤ (PgTable.mk [1, 2, 3] 4).rows.length ∧
    fill_table 2 10000 true (fun _ => 1) 9 (PgTable.mk [1, 2, 3] 4) =
      (PgTable.mk [1, 2, 3] 4,
       { skipped := true, truncated := false, batches := [], events := [],
         returnValue := 0 }) :=
  ⟨by decide, spec_C8_skip 2 10000 (fun _ => 1) 9 (PgTable.mk [1, 2, 3] 4) (by decide)⟩

/-- C4, amended: during a fill that is not skipped, a progress line is
emitted after exactly those batches at which the cumulative row counter —
initialised to the pre-existing row count, not to zero — is a multiple of
100 000, and the rate it reports divides that cumulative counter (which
includes the pre-existing rows) by the elapsed time since the loader
started. -/
theorem spec_C4_progress (rc bs : ℕ) (skip : Bool) (el : ℕ → ℚ) (fe : ℚ)
    (t : PgTable) (hns : skip = false ∨ t.rows.length < rc) :
    (fill_table rc bs skip el fe t).2.events =
      progress_of_batches el t.rows.length 0
        (fill_table rc bs skip el fe t).2.batches := by
  have hcond : ¬ (skip = true ∧ rc ≤ t.rows.length) := by
    rcases hns with h | h
    · intro hcon; rw [h] at hcon; exact Bool.false_ne_true hcon.1
    · intro hcon; omega
  simp only [fill_table, if_neg hcond]
  exact fill_loop_events_eq rc bs el rc t.rows.length 0

/-- Witness for C4 (amended) at a fresh fill of 3 rows in batches of 1. -/
theorem spec_C4_progress_witness :
    (false = false ∨ (PgTable.mk [] 5).rows.length < 3) ∧
    (fill_table 3 1 false (fun _ => 1) 0 (PgTable.mk [] 5)).2.events =
      progress_of_batches (fun _ => 1) (PgTable.mk [] 5).rows.length 0
        (fill_table 3 1 false (fun _ => 1) 0 (PgTable.mk [] 5)).2.batches :=
  ⟨Or.inl rfl,
   spec_C4_progress 3 1 false (fun _ => 1) 0 (PgTable.mk [] 5) (Or.inl rfl)⟩

unseal Rat.mul Rat.inv Rat.add Rat.sub in
/-- Counterexample to C4 as stated: resume a fill of target 200 000 with 100
pre-existing rows (batch size 10 000, constant elapsed time 1).  The run
inserts 199 900 rows, so the claim demands a progress line each time the
rows inserted by this run reach a multiple of 100 000 (hence one line with
rate 100000 / 1); the code instead emits its single line when the cumulative
counter — pre-existing rows included — reaches 200 000, a moment at which
this run has inserted 199 900 rows (not a multiple of 100 000), and the rate
it reports is 200000 / 1, counting the 100 pre-existing rows. -/
theorem spec_C4_cex :
    (fill_table 200000 10000 false (fun _ => 1) 7
        (PgTable.mk (List.range' 1 100) 101)).2.events =
      [{ totalInserted := 200000, rate := 200000 }] ∧
    (fill_table 200000 10000 false (fun _ => 1) 7
        (PgTable.mk (List.range' 1 100) 101)).2.batches.sum = 199900 ∧
    ¬ (199900 % 100000 = 0) ∧
    (200000 : ℚ) ≠ 199900 / 1 := by
  refine ⟨by decide, by decide, by decide, by decide⟩

/-- C9: every integer `--start-from` outside `[1, 7]` makes the seeder print
a validation error and return before connecting to the database, so no
connection is opened, no table is created and no table is filled. -/
theorem spec_C9_validation (s : ℤ) (h : s < 1 ∨ 7 < s) :
    seeder_main s = [SeederAction.printError] ∧
    SeederAction.connect ∉ seeder_main s ∧
    SeederAction.createTables ∉ seeder_main s ∧
    ∀ name, SeederAction.fillTable name ∉ seeder_main s := by
  have hval : seeder_main s = [SeederAction.printError] := by
    simp only [seeder_main, if_pos h]
  refine ⟨hval, ?_, ?_, ?_⟩
  · simp [hval]
  · simp [hval]
  · intro name; simp [hval]

/-- Witness for C9 at `--start-from 0`. -/
theorem spec_C9_validation_witness :
    ((0 : ℤ) < 1 ∨ 7 < (0 : ℤ)) ∧
    (seeder_main 0 = [SeederAction.printError] ∧
     SeederAction.connect ∉ seeder_main 0 ∧
     SeederAction.createTables ∉ seeder_main 0 ∧
     ∀ name, SeederAction.fillTable name ∉ seeder_main 0) :=
  ⟨Or.inl (by decide), spec_C9_validation 0 (Or.inl (by decide))⟩

/-- C10: `get_max_id` yields `0` (not a null and not an error) on an empty
table; a benchmark pass over a table whose max id is `0` returns `None`
having run no timed loop; and whenever the pass does run, every one of its
four timing sample sets is non-empty, so the base-statistics computation
(mean, median, min, max and friends) never sees an empty list. -/
theorem spec_C10_empty_guard :
    get_max_id [] = 0 ∧
    (∀ (rows : List ℕ) (dur : BenchOp → ℕ → ℚ) (count : ℕ),
      get_max_id rows = 0 → test_table rows dur count = none) ∧
    (∀ (rows : List ℕ) (dur : BenchOp → ℕ → ℚ) (count : ℕ)
      (res : List (BenchOp × List ℚ)), 0 < count →
      test_table rows dur count = some res →
      ∀ p ∈ res, p.2 ≠ [] ∧ (base_stats count p.2).isSome = true) := by
  refine ⟨rfl, ?_, ?_⟩
  · intro rows dur count hz
    simp only [test_table, if_pos hz]
  · intro rows dur count res hc hsome p hp
    by_cases hz : get_max_id rows = 0
    · simp only [test_table, if_pos hz] at hsome
      exact absurd hsome (by simp)
    · simp only [test_table, if_neg hz, Option.some.injEq] at hsome
      have hbase : ∀ ts : List ℚ, ts ≠ [] → (base_stats count ts).isSome = true := by
        intro ts hts
        simp [base_stats, hts]
      have hrt : ∀ op : BenchOp, run_times (dur op) count ≠ [] := by
        intro op
        have : (run_times (dur op) count).length = count := by simp [run_times]
        intro hnil
        rw [hnil] at this
        simp at this
        omega
      have hdel : (List.range (min count (rows.length + count))).map (dur .deleteById) ≠ [] := by
        have : ((List.range (min count (rows.length + count))).map
            (dur .deleteById)).length = min count (rows.length + count) := by simp
        intro hnil
        rw [hnil] at this
        simp at this
        omega
      rw [← hsome] at hp
      simp only [List.mem_cons, List.not_mem_nil, or_false] at hp
      rcases hp with h | h | h | h
      · rw [h]; exact ⟨hrt .insert, hbase _ (hrt .insert)⟩
      · rw [h]; exact ⟨hrt .selectById, hbase _ (hrt .selectById)⟩
      · rw [h]; exact ⟨hrt .updateById, hbase _ (hrt .updateById)⟩
      · rw [h]; exact ⟨hdel, hbase _ hdel⟩

/-- Witness for C10: the empty table returns `None`, and a one-row table at
`count = 1` yields four singleton sample sets, all accepted by
`base_stats`. -/
theorem spec_C10_empty_guard_witness :
    get_max_id [] = 0 ∧
    test_table [] (fun _ _ => 1) 1000 = none ∧
    (0 < 1 ∧
     ∀ p ∈ [(BenchOp.insert, [(1 : ℚ)]), (BenchOp.selectById, [(1 : ℚ)]),
            (BenchOp.updateById, [(1 : ℚ)]), (BenchOp.deleteById, [(1 : ℚ)])],
       p.2 ≠ [] ∧ (base_stats 1 p.2).isSome = true) :=
  ⟨spec_C10_empty_guard.1,
   spec_C10_empty_guard.2.1 [] (fun _ _ => 1) 1000 (by decide),
   by decide,
   spec_C10_empty_guard.2.2 [7] (fun _ _ => 1) 1
     [(BenchOp.insert, [(1 : ℚ)]), (BenchOp.selectById, [(1 : ℚ)]),
      (BenchOp.updateById, [(1 : ℚ)]), (BenchOp.deleteById, [(1 : ℚ)])]
     (by decide) (by decide)⟩

/-- C1, amended: every benchmark loop reports
`opsPerSecond = C / total` (and `0` when `total = 0`) where `C` is the
requested operation count.  For the INSERT, SELECT-by-id and UPDATE-by-id
loops the recorded sample set has exactly `C` samples, so this coincides
with `n / total` for `n` the number of samples; the DELETE loop, however,
keeps dividing the requested `C` by the total even when fewer than `C` ids
existed and the sample set is shorter. -/
theorem spec_C1_ops_per_second (dur : ℕ → ℚ) (count : ℕ) (hc : 0 < count)
    (maxId : ℕ) (ids : List ℕ) (hids : ids ≠ []) :
    ((test_insert dur count).map (fun b => b.ops_per_sec) =
      some (if 0 < (run_times dur count).sum
        then ((run_times dur count).length : ℚ) / (run_times dur count).sum
        else 0)) ∧
    ((test_select_by_id dur maxId count).map (fun b => b.ops_per_sec) =
      some (if 0 < (run_times dur count).sum
        then ((run_times dur count).length : ℚ) / (run_times dur count).sum
        else 0)) ∧
    ((test_update_by_id dur maxId count).map (fun b => b.ops_per_sec) =
      some (if 0 < (run_times dur count).sum
        then ((run_times dur count).length : ℚ) / (run_times dur count).sum
        else 0)) ∧
    ((test_delete_by_id dur ids count).map (fun b => b.ops_per_sec) =
      some (if 0 < ((List.range ids.length).map dur).sum
        then (count : ℚ) / ((List.range ids.length).map dur).sum
        else 0)) := by
  have hne := run_times_ne_nil dur count hc
  have hlen : ((run_times dur count).length : ℚ) = (count : ℚ) := by
    rw [run_times_length]
  have hdne : (List.range ids.length).map dur ≠ [] := by
    intro hnil
    have : ((List.range ids.length).map dur).length = ids.length := by simp
    rw [hnil] at this
    simp at this
    exact hids (List.length_eq_zero.mp this.symm)
  refine ⟨?_, ?_, ?_, ?_⟩
  · rw [test_insert, base_stats_ops count _ hne, hlen]
  · rw [test_select_by_id, base_stats_ops count _ hne, hlen]
  · rw [test_update_by_id, base_stats_ops count _ hne, hlen]
  · rw [test_delete_by_id, base_stats_ops count _ hdne]

/-- Witness for C1 (amended) at two constant 1-second samples per loop,
requested count 2, a single deletable id. -/
theorem spec_C1_ops_per_second_witness :
    0 < 2 ∧ ([3] : List ℕ) ≠ [] ∧
    (((test_insert (fun _ => 1) 2).map (fun b => b.ops_per_sec) =
      some (if 0 < (run_times (fun _ => 1) 2).sum
        then ((run_times (fun _ => 1) 2).length : ℚ) / (run_times (fun _ => 1) 2).sum
        else 0)) ∧
    ((test_select_by_id (fun _ => 1) 5 2).map (fun b => b.ops_per_sec) =
      some (if 0 < (run_times (fun _ => 1) 2).sum
        then ((run_times (fun _ => 1) 2).length : ℚ) / (run_times (fun _ => 1) 2).sum
        else 0)) ∧
    ((test_update_by_id (fun _ => 1) 5 2).map (fun b => b.ops_per_sec) =
      some (if 0 < (run_times (fun _ => 1) 2).sum
        then ((run_times (fun _ => 1) 2).length : ℚ) / (run_times (fun _ => 1) 2).sum
        else 0)) ∧
    ((test_delete_by_id (fun _ => 1) [3] 2).map (fun b => b.ops_per_sec) =
      some (if 0 < ((List.range ([3] : List ℕ).length).map (fun _ => (1 : ℚ))).sum
        then ((2 : ℕ) : ℚ) / ((List.range ([3] : List ℕ).length).map (fun _ => (1 : ℚ))).sum
        else 0))) :=
  ⟨by decide, by decide,
   spec_C1_ops_per_second (fun _ => 1) 2 (by decide) 5 [3] (by decide)⟩

unseal Rat.mul Rat.inv Rat.add Rat.sub in
/-- Counterexample to C1 as stated: a DELETE loop given only 2 ids but a
requested count of 1000, each delete taking 1 second, reports
`opsPerSecond = 1000 / 2 = 500`, not `n / total = 2 / 2 = 1` for `n` the
number of samples actually in the set. -/
theorem spec_C1_cex :
    (test_delete_by_id (fun _ => 1) [1, 2] 1000).map (fun b => b.ops_per_sec) =
      some 500 ∧
    ((List.range ([1, 2] : List ℕ).length).map (fun _ => (1 : ℚ))).length = 2 ∧
    ((List.range ([1, 2] : List ℕ).length).map (fun _ => (1 : ℚ))).sum = 2 ∧
    (500 : ℚ) ≠ 2 / 2 := by
  refine ⟨by decide, by decide, by decide, by decide⟩

unseal Rat.mul Rat.inv Rat.add Rat.sub in
/-- C2, amended: the median each benchmark loop reports is Python's
`statistics.median`: the middle element of the sorted samples for an odd
sample count, and the average of the two middle elements — in general not an
element of the sequence — for an even count.  Stated here for the INSERT
loop against any sorted rearrangement `s` of its samples. -/
theorem spec_C2_median (dur : ℕ → ℚ) (count : ℕ) (hc : 0 < count)
    (s : List ℚ) (hp : s.Perm (run_times dur count)) (hs : s.Sorted (· ≤ ·)) :
    (test_insert dur count).map (fun b => b.median_time) =
      some (if count % 2 = 1 then s.getD (count / 2) 0
        else (s.getD (count / 2 - 1) 0 + s.getD (count / 2) 0) / 2) := by
  have hne := run_times_ne_nil dur count hc
  have hlen : s.length = count := by
    rw [hp.length_eq, run_times_length]
  have hmed := median_eq_of_sorted (run_times dur count) s hne hp hs
  rw [hlen] at hmed
  rw [test_insert, base_stats_median count _ hne, hmed]
  rfl

/-- Witness for C2 (amended): an INSERT loop of two samples 0 and 1 reports
median `(0 + 1) / 2`. -/
theorem spec_C2_median_witness :
    0 < 2 ∧ ([(0 : ℚ), 1] : List ℚ).Perm (run_times (fun i => (i : ℚ)) 2) ∧
    ([(0 : ℚ), 1] : List ℚ).Sorted (· ≤ ·) ∧
    (test_insert (fun i => (i : ℚ)) 2).map (fun b => b.median_time) =
      some (if 2 % 2 = 1 then ([(0 : ℚ), 1] : List ℚ).getD (2 / 2) 0
        else (([(0 : ℚ), 1] : List ℚ).getD (2 / 2 - 1) 0 +
          ([(0 : ℚ), 1] : List ℚ).getD (2 / 2) 0) / 2) :=
  ⟨by decide, by decide, by decide,
   spec_C2_median (fun i => (i : ℚ)) 2 (by decide) [(0 : ℚ), 1]
     (by decide) (by decide)⟩

unseal Rat.mul Rat.inv Rat.add Rat.sub in
/-- Counterexample to C2 as stated: an INSERT loop whose two samples are 0
and 1 seconds reports median `1/2`, which is not an element of the sample
sequence at all, hence not the middle-rank element of its sorted order. -/
theorem spec_C2_cex :
    (test_insert (fun i => (i : ℚ)) 2).map (fun b => b.median_time) =
      some (1 / 2) ∧
    run_times (fun i => (i : ℚ)) 2 = [0, 1] ∧
    ((1 : ℚ) / 2) ∉ ([(0 : ℚ), 1] : List ℚ) := by
  refine ⟨by decide, by decide, by decide⟩

unseal Rat.mul Rat.inv Rat.add Rat.sub in
/-- C6: for every non-empty sample sequence the reported p95 and p99 are the
elements of any ascending sorting `s` at indices `⌊n × 0.95⌋` and
`⌊n × 0.99⌋`, clamped to `n - 1`, with no interpolation; for the 100 samples
`0..99` this gives p95 = 95 and p99 = 99, and for any 1000-sample sequence
the p99 is the sorted element at 0-indexed rank 990. -/
theorem spec_C6_percentiles :
    (∀ (times s : List ℚ), times ≠ [] → s.Perm times → s.Sorted (· ≤ ·) →
      calculate_extended_stats times =
        some { p95_time := s.getD (min (s.length * 95 / 100) (s.length - 1)) 0,
               p99_time := s.getD (min (s.length * 99 / 100) (s.length - 1)) 0 }) ∧
    calculate_extended_stats ((List.range 100).map (fun i => (i : ℚ))) =
      some { p95_time := 95, p99_time := 99 } ∧
    (∀ (times s : List ℚ), times.length = 1000 → s.Perm times →
      s.Sorted (· ≤ ·) →
      (calculate_extended_stats times).map (fun e => e.p99_time) =
        some (s.getD 990 0)) := by
  refine ⟨?_, by decide, ?_⟩
  · intro times s hne hp hs
    have hn : 0 < s.length := by
      rw [hp.length_eq]
      exact List.length_pos.mpr hne
    have h95 : s.length * 95 / 100 < s.length := by
      rw [Nat.div_lt_iff_lt_mul (by norm_num)]
      omega
    have h99 : s.length * 99 / 100 < s.length := by
      rw [Nat.div_lt_iff_lt_mul (by norm_num)]
      omega
    rw [calc_ext_eq times s hne hp hs,
        Nat.min_eq_left (Nat.le_sub_one_of_lt h95),
        Nat.min_eq_left (Nat.le_sub_one_of_lt h99)]
  · intro times s hlen hp hs
    have hne : times ≠ [] := by
      intro h
      rw [h] at hlen
      simp at hlen
    have hslen : s.length = 1000 := by rw [hp.length_eq, hlen]
    rw [calc_ext_eq times s hne hp hs, hslen]
    rfl

/-- Witness for C6: the samples `[5, 3]` sort to `[3, 5]` with p95 = p99 at
the clamped nearest rank, and a constant 1000-sample sequence has its p99 at
sorted index 990. -/
theorem spec_C6_percentiles_witness :
    (([(5 : ℚ), 3] : List ℚ) ≠ [] ∧
     ([(3 : ℚ), 5] : List ℚ).Perm [(5 : ℚ), 3] ∧
     ([(3 : ℚ), 5] : List ℚ).Sorted (· ≤ ·) ∧
     calculate_extended_stats [(5 : ℚ), 3] =
       some { p95_time := ([(3 : ℚ), 5] : List ℚ).getD
                (min (([(3 : ℚ), 5] : List ℚ).length * 95 / 100)
                  (([(3 : ℚ), 5] : List ℚ).length - 1)) 0,
              p99_time := ([(3 : ℚ), 5] : List ℚ).getD
                (min (([(3 : ℚ), 5] : List ℚ).length * 99 / 100)
                  (([(3 : ℚ), 5] : List ℚ).length - 1)) 0 }) ∧
    ((List.replicate 1000 (0 : ℚ)).length = 1000 ∧
     (calculate_extended_stats (List.replicate 1000 (0 : ℚ))).map (fun e => e.p99_time) =
       some ((List.replicate 1000 (0 : ℚ)).getD 990 0)) :=
  ⟨⟨by decide, by decide, by decide,
    spec_C6_percentiles.1 [(5 : ℚ), 3] [(3 : ℚ), 5]
      (by decide) (by decide) (by decide)⟩,
   ⟨by rw [List.length_replicate],
    spec_C6_percentiles.2.2 (List.replicate 1000 (0 : ℚ))
      (List.replicate 1000 (0 : ℚ)) (by rw [List.length_replicate]) (List.Perm.refl _)
      (List.pairwise_replicate.mpr (Or.inr le_rfl))⟩⟩

unseal Rat.mul Rat.inv Rat.add Rat.sub in
/-- C3, amended: the size formatter renders any non-negative byte count in
the largest applicable unit of the base-1024 sequence
`Б, КБ, МБ, ГБ, ТБ, ПБ` (the Cyrillic labels the source uses, not the Latin
`B, KB, ...`) with two decimal places; in particular `format_size 1536` is
the string `"1.50 КБ"` and `format_size 0` is `"0.00 Б"`. -/
theorem spec_C3_format_size :
    format_size 1536 = "1.50 КБ" ∧ format_size 0 = "0.00 Б" ∧
    ∀ b : ℚ, 0 ≤ b →
      format_size b =
        fmtTwoDec (b / 1024 ^ spec_unit_index b) ++ " " ++
          (["Б", "КБ", "МБ", "ГБ", "ТБ", "ПБ"].getD (spec_unit_index b) "") := by
  refine ⟨by decide, by decide, ?_⟩
  intro b hb
  have c1 : (0 : ℚ) < 1024 := by norm_num
  have c2 : (0 : ℚ) < 1024 * 1024 := by norm_num
  have c3 : (0 : ℚ) < 1024 * (1024 * 1024) := by norm_num
  have c4 : (0 : ℚ) < 1024 * (1024 * (1024 * 1024)) := by norm_num
  by_cases h1 : b < 1024
  · have hidx : spec_unit_index b = 0 := by
      unfold spec_unit_index
      rw [if_pos h1]
    rw [hidx]
    simp only [format_size, format_size_go, if_pos h1]
    norm_num
  · by_cases h2 : b < 1024 ^ 2
    · have hidx : spec_unit_index b = 1 := by
        unfold spec_unit_index
        rw [if_neg h1, if_pos h2]
      have hlt : b / 1024 < 1024 := by
        rw [div_lt_iff₀ c1]
        norm_num at h2 ⊢
        linarith
      rw [hidx]
      simp only [format_size, format_size_go, if_neg h1, if_pos hlt]
      norm_num
    · have hge2 : ¬ b / 1024 < 1024 := by
        rw [div_lt_iff₀ c1]
        norm_num at h2 ⊢
        linarith
      by_cases h3 : b < 1024 ^ 3
      · have hidx : spec_unit_index b = 2 := by
          unfold spec_unit_index
          rw [if_neg h1, if_neg h2, if_pos h3]
        have hlt : b / 1024 / 1024 < 1024 := by
          rw [div_div, div_lt_iff₀ c2]
          norm_num at h3 ⊢
          linarith
        rw [hidx]
        simp only [format_size, format_size_go, if_neg h1, if_neg hge2, if_pos hlt]
        rw [div_div]
        norm_num
      · have hge3 : ¬ b / 1024 / 1024 < 1024 := by
          rw [div_div, div_lt_iff₀ c2]
          norm_num at h3 ⊢
          linarith
        by_cases h4 : b < 1024 ^ 4
        · have hidx : spec_unit_index b = 3 := by
            unfold spec_unit_index
            rw [if_neg h1, if_neg h2, if_neg h3, if_pos h4]
          have hlt : b / 1024 / 1024 / 1024 < 1024 := by
            rw [div_div, div_div, div_lt_iff₀ c3]
            norm_num at h4 ⊢
            linarith
          rw [hidx]
          simp only [format_size, format_size_go, if_neg h1, if_neg hge2,
            if_neg hge3, if_pos hlt]
          rw [div_div, div_div]
          norm_num
        · have hge4 : ¬ b / 1024 / 1024 / 1024 < 1024 := by
            rw [div_div, div_div, div_lt_iff₀ c3]
            norm_num at h4 ⊢
            linarith
          by_cases h5 : b < 1024 ^ 5
          · have hidx : spec_unit_index b = 4 := by
              unfold spec_unit_index
              rw [if_neg h1, if_neg h2, if_neg h3, if_neg h4, if_pos h5]
            have hlt : b / 1024 / 1024 / 1024 / 1024 < 1024 := by
              rw [div_div, div_div, div_div, div_lt_iff₀ c4]
              norm_num at h5 ⊢
              linarith
            rw [hidx]
            simp only [format_size, format_size_go, if_neg h1, if_neg hge2,
              if_neg hge3, if_neg hge4, if_pos hlt]
            rw [div_div, div_div, div_div]
            norm_num
          · have hge5 : ¬ b / 1024 / 1024 / 1024 / 1024 < 1024 := by
              rw [div_div, div_div, div_div, div_lt_iff₀ c4]
              norm_num at h5 ⊢
              linarith
            have hidx : spec_unit_index b = 5 := by
              unfold spec_unit_index
              rw [if_neg h1, if_neg h2, if_neg h3, if_neg h4, if_neg h5]
            rw [hidx]
            simp only [format_size, format_size_go, if_neg h1, if_neg hge2,
              if_neg hge3, if_neg hge4, if_neg hge5]
            rw [div_div, div_div, div_div, div_div,
              show (" ПБ" : String) = " " ++ "ПБ" from rfl,
              ← String.append_assoc]
            norm_num

/-- Witness for C3 (amended) at 1536 bytes. -/
theorem spec_C3_format_size_witness :
    (0 : ℚ) ≤ 1536 ∧
    format_size 1536 =
      fmtTwoDec ((1536 : ℚ) / 1024 ^ spec_unit_index 1536) ++ " " ++
        (["Б", "КБ", "МБ", "ГБ", "ТБ", "ПБ"].getD (spec_unit_index 1536) "") :=
  ⟨by norm_num, spec_C3_format_size.2.2 1536 (by norm_num)⟩

unseal Rat.mul Rat.inv Rat.add Rat.sub in
/-- Counterexample to C3 as stated: the formatter's unit labels are the
Cyrillic `Б, КБ, ...`, so `format_size 1536` is not the claimed string
`"1.50 KB"` and `format_size 0` is not `"0.00 B"`. -/
theorem spec_C3_cex :
    format_size 1536 ≠ "1.50 KB" ∧ format_size 0 ≠ "0.00 B" := by
  refine ⟨by decide, by decide⟩

end PgText
